import Mathlib

/-!
Shallow embedding of `daart/eval.py` (evaluation utilities for a
sequence classifier) and proofs of its specified properties.

Conventions of the embedding:
* numpy integer arrays become `List ℤ` (or `List ℕ` where the source
  requires non-negative entries);
* floating-point results become `ℚ`; the float value NaN ("undefined")
  becomes `Option.none`, so a numpy float array that may hold NaNs
  becomes `List (Option ℚ)`;
* a Python function that can raise (a failed `assert`, a `KeyError` on a
  missing CSV column, `np.max` of an empty array, `pd.concat` of an empty
  list) returns `Option _`, with `none` for the raising executions.
-/

namespace Daart

/-! ### np.unique

`np.unique` returns the sorted distinct values of an array.  It is
embedded as a fold of sorted insertion. -/

def insertSorted (x : ℤ) : List ℤ → List ℤ
  | [] => [x]
  | y :: l => if x < y then x :: y :: l else if x = y then y :: l else y :: insertSorted x l

def npUnique (l : List ℤ) : List ℤ := l.foldr insertSorted []

/-! ### get_precision_recall

The source asserts `true_classes.shape[0] == pred_classes.shape[0]` and
`background == 0`, filters out the time points whose true class is the
background, infers `n_classes` from the distinct remaining true labels
when it is not given, computes sklearn precision/recall over the labels
`1 .. n_classes` with `zero_division=0`, replaces a (precision, recall)
pair that is (0, 0) by NaNs, and finally sets `f1 = 2*p*r/(p+r)`
(elementwise float arithmetic, so NaN propagates and `0/0` is NaN). -/

def countTP (pairs : List (ℤ × ℤ)) (c : ℤ) : ℕ :=
  pairs.countP (fun x => decide (x.1 = c ∧ x.2 = c))

def countPredPos (pairs : List (ℤ × ℤ)) (c : ℤ) : ℕ :=
  pairs.countP (fun x => decide (x.2 = c))

def countSupport (pairs : List (ℤ × ℤ)) (c : ℤ) : ℕ :=
  pairs.countP (fun x => decide (x.1 = c))

def precision_score (pairs : List (ℤ × ℤ)) (c : ℤ) : ℚ :=
  if countPredPos pairs c = 0 then 0
  else (countTP pairs c : ℚ) / (countPredPos pairs c : ℚ)

def recall_score (pairs : List (ℤ × ℤ)) (c : ℤ) : ℚ :=
  if countSupport pairs c = 0 then 0
  else (countTP pairs c : ℚ) / (countSupport pairs c : ℚ)

/-- Time points kept by `np.where(true_classes != background)`, zipped with
their predictions. -/
def obsPairs (t p : List ℤ) (background : ℤ) : List (ℤ × ℤ) :=
  (t.zip p).filter (fun x => decide (x.1 ≠ background))

/-- `n_classes` when given, else `len(np.unique(true_classes[obs_idxs]))`. -/
def inferClasses (nc : Option ℕ) (pairs : List (ℤ × ℤ)) : ℕ :=
  match nc with
  | some K => K
  | none => (npUnique (pairs.map Prod.fst)).length

/-- The post-processing loop: `if precision[n] == 0 and recall[n] == 0`
then both entries become NaN. -/
def substPR (p r : ℚ) : Option ℚ × Option ℚ :=
  if p = 0 ∧ r = 0 then (none, none) else (some p, some r)

/-- Elementwise `2*p*r/(p+r)` on floats: NaN operands propagate, and a
`0/0` (possible only when `p + r = 0`) is NaN. -/
def f1Score (p r : Option ℚ) : Option ℚ :=
  match p, r with
  | some p, some r => if p + r = 0 then none else some (2 * p * r / (p + r))
  | _, _ => none

/-- The (precision, recall) pairs for labels `1 .. K`, after the NaN
substitution. -/
def prPairs (pairs : List (ℤ × ℤ)) (K : ℕ) : List (Option ℚ × Option ℚ) :=
  (List.range K).map fun (i : ℕ) =>
    substPR (precision_score pairs ((i : ℤ) + 1)) (recall_score pairs ((i : ℤ) + 1))

structure PRResult where
  precision : List (Option ℚ)
  recall' : List (Option ℚ)
  f1 : List (Option ℚ)
deriving DecidableEq, Repr

def get_precision_recall (t p : List ℤ) (background : ℤ) (n_classes : Option ℕ) :
    Option PRResult :=
  if t.length = p.length ∧ background = 0 then
    let pairs := obsPairs t p background
    let pr := prPairs pairs (inferClasses n_classes pairs)
    some ⟨pr.map Prod.fst, pr.map Prod.snd, pr.map fun x => f1Score x.1 x.2⟩
  else none

/-! ### int_over_union -/

def int_over_union (a1 a2 : List ℤ) : List (ℤ × ℚ) :=
  (npUnique (npUnique a1 ++ npUnique a2)).map fun v =>
    (v, ((a1.zip a2).countP (fun x => decide (x.1 = v ∧ x.2 = v)) : ℚ) /
        ((a1.zip a2).countP (fun x => decide (x.1 = v ∨ x.2 = v)) : ℚ))

/-! ### run_lengths

`itertools.groupby` over a list yields the maximal runs of equal adjacent
elements, as (value, run length) pairs in order. -/

def groupRuns : List ℕ → List (ℕ × ℕ)
  | [] => []
  | a :: l =>
    match groupRuns l with
    | [] => [(a, 1)]
    | (b, n) :: rest => if a = b then (a, n + 1) :: rest else (a, 1) :: (b, n) :: rest

/-- Concatenation of the runs back into a list. -/
def runsFlatten : List (ℕ × ℕ) → List ℕ
  | [] => []
  | g :: gs => List.replicate g.2 g.1 ++ runsFlatten gs

/-- `np.max` of an array (0 on the empty array, on which the source
raises before reaching it). -/
def listMax (l : List ℕ) : ℕ := l.foldr max 0

/-- `run_lengths`: keys are `0 .. np.max(array)`, each mapped to the list
of its run lengths in order; `np.max` of an empty array raises. -/
def run_lengths (a : List ℕ) : Option (List (ℕ × List ℕ)) :=
  if a = [] then none
  else some ((List.range (listMax a + 1)).map fun k =>
    (k, ((groupRuns a).filter (fun g => decide (g.1 = k))).map Prod.snd))

/-! ### load_metrics_csv_as_df

A CSV row has a `dataset` column, an `epoch` column, and named numeric
columns; looking up a missing column raises `KeyError`.  The dataset
label is `'all'` for index -1, else `expt_ids[int(dataset)]` when
`expt_ids` is given (Python list indexing, negative indices from the
end, out of range raises), else the raw index. -/

structure CsvRow where
  dataset : ℤ
  epoch : ℚ
  cols : List (String × ℚ)
deriving DecidableEq, Repr

def getCol (r : CsvRow) (c : String) : Option ℚ :=
  (r.cols.find? (fun x => decide (x.1 = c))).map Prod.snd

inductive DSLabel where
  | str (s : String)
  | num (d : ℤ)
deriving DecidableEq, Repr

def pyIndex (ids : List String) (d : ℤ) : Option String :=
  let j : ℤ := if d < 0 then (ids.length : ℤ) + d else d
  if j < 0 then none else ids.get? j.toNat

def datasetLabel (expt_ids : Option (List String)) (d : ℤ) : Option DSLabel :=
  if d = -1 then some (DSLabel.str "all")
  else
    match expt_ids with
    | some ids => (pyIndex ids d).map DSLabel.str
    | none => some (DSLabel.num d)

structure MetricsRec where
  dataset : DSLabel
  epoch : ℚ
  dtype : String
  loss : String
  val : ℚ
deriving DecidableEq, Repr

/-- One inner loop `for metric in metrics_list`: a record per metric with
the given dtype, reading column `colPre ++ metric`. -/
def splitRecs (ds : DSLabel) (e : ℚ) (colPre dt : String) (r : CsvRow) :
    List String → Option (List MetricsRec)
  | [] => some []
  | m :: ms =>
    match getCol r (colPre ++ m), splitRecs ds e colPre dt r ms with
    | some v, some rest => some (⟨ds, e, dt, m, v⟩ :: rest)
    | _, _ => none

/-- The records one source row contributes: `test_` columns in test mode,
else the `val_` records followed by the `tr_` records. -/
def rowRecords (expt_ids : Option (List String)) (test : Bool) (ml : List String)
    (r : CsvRow) : Option (List MetricsRec) :=
  match datasetLabel expt_ids r.dataset with
  | none => none
  | some ds =>
    if test then splitRecs ds r.epoch "test_" "test" r ml
    else
      match splitRecs ds r.epoch "val_" "val" r ml,
            splitRecs ds r.epoch "tr_" "train" r ml with
      | some vs, some ts => some (vs ++ ts)
      | _, _ => none

def loadRows (expt_ids : Option (List String)) (test : Bool) (ml : List String) :
    List CsvRow → Option (List MetricsRec)
  | [] => some []
  | r :: rs =>
    match rowRecords expt_ids test ml r, loadRows expt_ids test ml rs with
    | some a, some b => some (a ++ b)
    | _, _ => none

/-- `load_metrics_csv_as_df`: the final `pd.concat(metrics_df, sort=True)`
raises when no dataframe was appended, i.e. when the CSV has no row or
the metric list is empty. -/
def load_metrics_csv_as_df (csv : List CsvRow) (ml : List String)
    (expt_ids : Option (List String)) (test : Bool) : Option (List MetricsRec) :=
  if csv = [] ∨ ml = [] then none
  else loadRows expt_ids test ml csv

/-! ### Lemmas: np.unique -/

lemma mem_insertSorted {x a : ℤ} {l : List ℤ} :
    x ∈ insertSorted a l ↔ x = a ∨ x ∈ l := by
  induction l with
  | nil => simp [insertSorted]
  | cons y l ih =>
    simp only [insertSorted]
    split
    · simp [List.mem_cons, or_assoc]
    · split
      · next heq => subst heq; simp [List.mem_cons]
      · simp only [List.mem_cons, ih]; tauto

lemma mem_npUnique {x : ℤ} {l : List ℤ} : x ∈ npUnique l ↔ x ∈ l := by
  induction l with
  | nil => simp [npUnique]
  | cons y l ih =>
    show x ∈ insertSorted y (npUnique l) ↔ _
    rw [mem_insertSorted, ih]
    simp [List.mem_cons]

lemma sorted_insertSorted {a : ℤ} {l : List ℤ} (h : l.Sorted (· < ·)) :
    (insertSorted a l).Sorted (· < ·) := by
  induction l with
  | nil => simp [insertSorted]
  | cons y l ih =>
    rw [List.sorted_cons] at h
    simp only [insertSorted]
    split
    · next hlt =>
      rw [List.sorted_cons]
      refine ⟨?_, List.sorted_cons.mpr h⟩
      intro b hb
      rcases List.mem_cons.mp hb with hb | hb
      · exact hb ▸ hlt
      · exact lt_trans hlt (h.1 b hb)
    · split
      · next heq => exact List.sorted_cons.mpr h
      · next h1 h2 =>
        have hya : y < a := by omega
        rw [List.sorted_cons]
        refine ⟨?_, ih h.2⟩
        intro b hb
        rcases mem_insertSorted.mp hb with hb | hb
        · exact hb ▸ hya
        · exact h.1 b hb

lemma sorted_npUnique (l : List ℤ) : (npUnique l).Sorted (· < ·) := by
  induction l with
  | nil => exact List.sorted_nil
  | cons y l ih => exact sorted_insertSorted ih

lemma nodup_npUnique (l : List ℤ) : (npUnique l).Nodup := (sorted_npUnique l).nodup

/-! ### Lemmas: precision / recall scores -/

lemma countTP_le_countPredPos (pairs : List (ℤ × ℤ)) (c : ℤ) :
    countTP pairs c ≤ countPredPos pairs c := by
  apply List.countP_mono_left
  intro x _ hx
  simp only [decide_eq_true_eq] at hx ⊢
  exact hx.2

lemma countTP_le_countSupport (pairs : List (ℤ × ℤ)) (c : ℤ) :
    countTP pairs c ≤ countSupport pairs c := by
  apply List.countP_mono_left
  intro x _ hx
  simp only [decide_eq_true_eq] at hx ⊢
  exact hx.1

lemma precision_score_mem (pairs : List (ℤ × ℤ)) (c : ℤ) :
    0 ≤ precision_score pairs c ∧ precision_score pairs c ≤ 1 := by
  unfold precision_score
  split
  · norm_num
  · next h =>
    have hpos : (0 : ℚ) < (countPredPos pairs c : ℚ) := by
      exact_mod_cast Nat.pos_of_ne_zero h
    constructor
    · positivity
    · rw [div_le_one hpos]
      exact_mod_cast countTP_le_countPredPos pairs c

lemma recall_score_mem (pairs : List (ℤ × ℤ)) (c : ℤ) :
    0 ≤ recall_score pairs c ∧ recall_score pairs c ≤ 1 := by
  unfold recall_score
  split
  · norm_num
  · next h =>
    have hpos : (0 : ℚ) < (countSupport pairs c : ℚ) := by
      exact_mod_cast Nat.pos_of_ne_zero h
    constructor
    · positivity
    · rw [div_le_one hpos]
      exact_mod_cast countTP_le_countSupport pairs c

lemma scores_eq_zero_of_no_support {pairs : List (ℤ × ℤ)} {c : ℤ}
    (h : countSupport pairs c = 0) :
    precision_score pairs c = 0 ∧ recall_score pairs c = 0 := by
  have htp : countTP pairs c = 0 :=
    Nat.le_zero.mp (h ▸ countTP_le_countSupport pairs c)
  constructor
  · unfold precision_score
    rw [htp]
    split <;> simp
  · unfold recall_score
    simp [h]

lemma f1Score_mem {p r q : ℚ} (hp0 : 0 ≤ p) (hp1 : p ≤ 1) (hr0 : 0 ≤ r) (hr1 : r ≤ 1)
    (h : f1Score (some p) (some r) = some q) : 0 ≤ q ∧ q ≤ 1 := by
  by_cases hpr : p + r = 0
  · simp [f1Score, hpr] at h
  · simp only [f1Score, if_neg hpr] at h
    have hq := Option.some.inj h
    subst hq
    have hpos : 0 < p + r := lt_of_le_of_ne (by positivity) (Ne.symm hpr)
    constructor
    · positivity
    · rw [div_le_one hpos]
      nlinarith

lemma substPR_cases (p r : ℚ) :
    (substPR p r = (none, none) ∧ p = 0 ∧ r = 0) ∨
    (substPR p r = (some p, some r) ∧ ¬(p = 0 ∧ r = 0)) := by
  unfold substPR
  split <;> simp_all

lemma length_prPairs (pairs : List (ℤ × ℤ)) (K : ℕ) : (prPairs pairs K).length = K := by
  unfold prPairs
  rw [List.length_map, List.length_range]

lemma prPairs_get? (pairs : List (ℤ × ℤ)) {K i : ℕ} (hi : i < K) :
    (prPairs pairs K)[i]? =
      some (substPR (precision_score pairs ((i : ℤ) + 1))
        (recall_score pairs ((i : ℤ) + 1))) := by
  unfold prPairs
  rw [List.getElem?_map, List.getElem?_range hi]
  rfl

lemma mem_prPairs {pairs : List (ℤ × ℤ)} {K : ℕ} {x : Option ℚ × Option ℚ}
    (h : x ∈ prPairs pairs K) :
    ∃ i : ℕ, x = substPR (precision_score pairs ((i : ℤ) + 1))
      (recall_score pairs ((i : ℤ) + 1)) := by
  unfold prPairs at h
  obtain ⟨i, hi, hx⟩ := List.mem_map.mp h
  exact ⟨i, hx.symm⟩

lemma get_precision_recall_eq {t p : List ℤ} {bg : ℤ} {nc : Option ℕ} {res : PRResult}
    (h : get_precision_recall t p bg nc = some res) :
    bg = 0 ∧ t.length = p.length ∧
      res = ⟨(prPairs (obsPairs t p bg) (inferClasses nc (obsPairs t p bg))).map Prod.fst,
             (prPairs (obsPairs t p bg) (inferClasses nc (obsPairs t p bg))).map Prod.snd,
             (prPairs (obsPairs t p bg) (inferClasses nc (obsPairs t p bg))).map
               fun x => f1Score x.1 x.2⟩ := by
  unfold get_precision_recall at h
  split at h
  · next hc => exact ⟨hc.2, hc.1, (Option.some.inj h).symm⟩
  · cases h

/-! ### Claims C1, C2, C3 -/

/-- C1, counterexample: the claim says the resulting f1 is NaN exactly for
the classes with no ground-truth support and a real number for every class
with support.  On `true = [1, 2]`, `pred = [2, 1]` class 1 has ground-truth
support (one observed time point) yet its precision and recall are both 0,
so the substitution fires and its f1 is NaN (`none`). -/
theorem C1_counterexample :
    get_precision_recall [1, 2] [2, 1] 0 none =
      some ⟨[none, none], [none, none], [none, none]⟩ ∧
    countSupport (obsPairs [1, 2] [2, 1] 0) 1 = 1 := by
  constructor
  · norm_num [get_precision_recall, obsPairs, prPairs, inferClasses, npUnique, insertSorted,
      precision_score, recall_score, countTP, countPredPos, countSupport, substPR, f1Score,
      List.countP, List.countP.go, List.range, List.range.loop, List.filter, List.zip,
      List.zipWith]
  · decide

/-- C1 (amended): for every class `i+1` of `1 .. K`, the precision and
recall entries are NaN exactly when the raw precision and recall scores are
both zero (the post-processing substitution), the f1 entry is NaN exactly
in the same situation - which includes every class with no ground-truth
support after background exclusion - and every non-NaN f1 entry lies in
[0, 1]. -/
theorem C1_nan_substitution_and_f1 (t p : List ℤ) (bg : ℤ) (nc : Option ℕ)
    (res : PRResult) (h : get_precision_recall t p bg nc = some res) (i : ℕ)
    (hi : i < inferClasses nc (obsPairs t p bg)) :
    (res.precision[i]? = some none ↔
      precision_score (obsPairs t p bg) ((i : ℤ) + 1) = 0 ∧
      recall_score (obsPairs t p bg) ((i : ℤ) + 1) = 0) ∧
    (res.recall'[i]? = some none ↔
      precision_score (obsPairs t p bg) ((i : ℤ) + 1) = 0 ∧
      recall_score (obsPairs t p bg) ((i : ℤ) + 1) = 0) ∧
    (res.f1[i]? = some none ↔
      precision_score (obsPairs t p bg) ((i : ℤ) + 1) = 0 ∧
      recall_score (obsPairs t p bg) ((i : ℤ) + 1) = 0) ∧
    (countSupport (obsPairs t p bg) ((i : ℤ) + 1) = 0 → res.f1[i]? = some none) ∧
    (∀ q : ℚ, res.f1[i]? = some (some q) → 0 ≤ q ∧ q ≤ 1) := by
  have hPm := precision_score_mem (obsPairs t p bg) ((i : ℤ) + 1)
  have hRm := recall_score_mem (obsPairs t p bg) ((i : ℤ) + 1)
  obtain ⟨-, -, hres⟩ := get_precision_recall_eq h
  have hget := prPairs_get? (obsPairs t p bg) hi
  have h1 : res.precision[i]? =
      some (substPR (precision_score (obsPairs t p bg) ((i : ℤ) + 1))
        (recall_score (obsPairs t p bg) ((i : ℤ) + 1))).1 := by
    rw [hres]
    simp [List.getElem?_map, hget]
  have h2 : res.recall'[i]? =
      some (substPR (precision_score (obsPairs t p bg) ((i : ℤ) + 1))
        (recall_score (obsPairs t p bg) ((i : ℤ) + 1))).2 := by
    rw [hres]
    simp [List.getElem?_map, hget]
  have h3 : res.f1[i]? =
      some (f1Score
        (substPR (precision_score (obsPairs t p bg) ((i : ℤ) + 1))
          (recall_score (obsPairs t p bg) ((i : ℤ) + 1))).1
        (substPR (precision_score (obsPairs t p bg) ((i : ℤ) + 1))
          (recall_score (obsPairs t p bg) ((i : ℤ) + 1))).2) := by
    rw [hres]
    simp [List.getElem?_map, hget]
  rcases substPR_cases (precision_score (obsPairs t p bg) ((i : ℤ) + 1))
      (recall_score (obsPairs t p bg) ((i : ℤ) + 1)) with
    ⟨heq, hP0, hR0⟩ | ⟨heq, hnz⟩
  · rw [heq] at h1 h2 h3
    refine ⟨?_, ?_, ?_, fun _ => ?_, fun q hq => ?_⟩
    · rw [h1]; simp [hP0, hR0]
    · rw [h2]; simp [hP0, hR0]
    · rw [h3]; simp [f1Score, hP0, hR0]
    · rw [h3]; simp [f1Score]
    · rw [h3] at hq; simp [f1Score] at hq
  · have hPR : precision_score (obsPairs t p bg) ((i : ℤ) + 1) +
        recall_score (obsPairs t p bg) ((i : ℤ) + 1) ≠ 0 := by
      intro h0
      exact hnz ⟨by nlinarith [hPm.1, hRm.1], by nlinarith [hPm.1, hRm.1]⟩
    rw [heq] at h1 h2 h3
    refine ⟨?_, ?_, ?_, fun hsup => ?_, fun q hq => ?_⟩
    · rw [h1]
      simp only [Option.some.injEq]
      exact ⟨fun hx => (Option.some_ne_none _ hx).elim, fun hx => (hnz hx).elim⟩
    · rw [h2]
      simp only [Option.some.injEq]
      exact ⟨fun hx => (Option.some_ne_none _ hx).elim, fun hx => (hnz hx).elim⟩
    · have hf : f1Score
          (some (precision_score (obsPairs t p bg) ((i : ℤ) + 1)))
          (some (recall_score (obsPairs t p bg) ((i : ℤ) + 1))) =
          some (2 * precision_score (obsPairs t p bg) ((i : ℤ) + 1) *
            recall_score (obsPairs t p bg) ((i : ℤ) + 1) /
            (precision_score (obsPairs t p bg) ((i : ℤ) + 1) +
              recall_score (obsPairs t p bg) ((i : ℤ) + 1))) := by
        simp [f1Score, hPR]
      rw [h3, hf]
      simp only [Option.some.injEq]
      exact ⟨fun hx => (Option.some_ne_none _ hx).elim, fun hx => (hnz hx).elim⟩
    · exact absurd (scores_eq_zero_of_no_support hsup) hnz
    · rw [h3] at hq
      have hq1 := Option.some.inj hq
      exact f1Score_mem hPm.1 hPm.2 hRm.1 hRm.2 hq1

/-- C1, witness of the amended theorem at `true = [1, 1]`, `pred = [1, 1]`
with `n_classes = 2`: class 2 (index 1) has no ground-truth support, so its
f1 entry is NaN. -/
theorem C1_nan_substitution_and_f1_witness :
    (PRResult.mk [some 1, none] [some 1, none] [some 1, none]).f1[1]? =
      some none :=
  (C1_nan_substitution_and_f1 [1, 1] [1, 1] 0 (some 2)
      ⟨[some 1, none], [some 1, none], [some 1, none]⟩
      (by norm_num [get_precision_recall, obsPairs, prPairs, inferClasses, npUnique, insertSorted,
      precision_score, recall_score, countTP, countPredPos, countSupport, substPR, f1Score,
      List.countP, List.countP.go, List.range, List.range.loop, List.filter, List.zip,
      List.zipWith]) 1 (by decide)).2.2.2.1 (by decide)

/-- C2: whenever `get_precision_recall` returns a result, the three arrays
`precision`, `recall`, `f1` all have length K - the supplied `n_classes`,
or the number of distinct non-background true labels when it is omitted -
and every entry is either NaN (`none`) or a rational in [0, 1]. -/
theorem C2_output_shape_and_range (t p : List ℤ) (bg : ℤ) (nc : Option ℕ)
    (res : PRResult) (h : get_precision_recall t p bg nc = some res) :
    res.precision.length = inferClasses nc (obsPairs t p bg) ∧
    res.recall'.length = inferClasses nc (obsPairs t p bg) ∧
    res.f1.length = inferClasses nc (obsPairs t p bg) ∧
    ∀ x ∈ res.precision ++ res.recall' ++ res.f1,
      x = none ∨ ∃ q : ℚ, x = some q ∧ 0 ≤ q ∧ q ≤ 1 := by
  obtain ⟨-, -, rfl⟩ := get_precision_recall_eq h
  refine ⟨by simp [length_prPairs], by simp [length_prPairs],
    by simp [length_prPairs], ?_⟩
  intro x hx
  simp only [List.mem_append] at hx
  rcases hx with (hx | hx) | hx
  · obtain ⟨pair, hpair, rfl⟩ := List.mem_map.mp hx
    obtain ⟨i, rfl⟩ := mem_prPairs hpair
    rcases substPR_cases (precision_score (obsPairs t p bg) ((i : ℤ) + 1))
        (recall_score (obsPairs t p bg) ((i : ℤ) + 1)) with ⟨heq, -⟩ | ⟨heq, -⟩
    · rw [heq]; left; rfl
    · rw [heq]
      exact Or.inr ⟨_, rfl, (precision_score_mem _ _).1, (precision_score_mem _ _).2⟩
  · obtain ⟨pair, hpair, rfl⟩ := List.mem_map.mp hx
    obtain ⟨i, rfl⟩ := mem_prPairs hpair
    rcases substPR_cases (precision_score (obsPairs t p bg) ((i : ℤ) + 1))
        (recall_score (obsPairs t p bg) ((i : ℤ) + 1)) with ⟨heq, -⟩ | ⟨heq, -⟩
    · rw [heq]; left; rfl
    · rw [heq]
      exact Or.inr ⟨_, rfl, (recall_score_mem _ _).1, (recall_score_mem _ _).2⟩
  · obtain ⟨pair, hpair, rfl⟩ := List.mem_map.mp hx
    obtain ⟨i, rfl⟩ := mem_prPairs hpair
    rcases substPR_cases (precision_score (obsPairs t p bg) ((i : ℤ) + 1))
        (recall_score (obsPairs t p bg) ((i : ℤ) + 1)) with ⟨heq, -⟩ | ⟨heq, hnz⟩
    · rw [heq]; left; rfl
    · rw [heq]
      by_cases hpr : precision_score (obsPairs t p bg) ((i : ℤ) + 1) +
          recall_score (obsPairs t p bg) ((i : ℤ) + 1) = 0
      · left; simp [f1Score, hpr]
      · right
        have hf : f1Score
            (some (precision_score (obsPairs t p bg) ((i : ℤ) + 1)))
            (some (recall_score (obsPairs t p bg) ((i : ℤ) + 1))) =
            some (2 * precision_score (obsPairs t p bg) ((i : ℤ) + 1) *
              recall_score (obsPairs t p bg) ((i : ℤ) + 1) /
              (precision_score (obsPairs t p bg) ((i : ℤ) + 1) +
                recall_score (obsPairs t p bg) ((i : ℤ) + 1))) := by
          simp [f1Score, hpr]
        exact ⟨_, hf, f1Score_mem (precision_score_mem _ _).1 (precision_score_mem _ _).2
          (recall_score_mem _ _).1 (recall_score_mem _ _).2 hf⟩

/-- C2, witness at `true = [1, 2]`, `pred = [1, 2]`, inferred K = 2. -/
theorem C2_output_shape_and_range_witness :
    (PRResult.mk [some 1, some 1] [some 1, some 1] [some 1, some 1]).precision.length =
      inferClasses none (obsPairs [1, 2] [1, 2] 0) :=
  (C2_output_shape_and_range [1, 2] [1, 2] 0 none
    ⟨[some 1, some 1], [some 1, some 1], [some 1, some 1]⟩
    (by norm_num [get_precision_recall, obsPairs, prPairs, inferClasses, npUnique, insertSorted,
      precision_score, recall_score, countTP, countPredPos, countSupport, substPR, f1Score,
      List.countP, List.countP.go, List.range, List.range.loop, List.filter, List.zip,
      List.zipWith])).1

/-- C3: `get_precision_recall` produces a result exactly when the two label
arrays have equal length and the background argument is 0; a mismatched
length or a background other than 0 makes an assert fire, so nothing is
returned. -/
theorem C3_assert_contract (t p : List ℤ) (bg : ℤ) (nc : Option ℕ) :
    (get_precision_recall t p bg nc).isSome = true ↔
      t.length = p.length ∧ bg = 0 := by
  unfold get_precision_recall
  split
  · next hc => simp [hc]
  · next hc => simp [hc]

/-! ### Claim C4 -/

lemma keys_int_over_union (a1 a2 : List ℤ) :
    (int_over_union a1 a2).map Prod.fst = npUnique (npUnique a1 ++ npUnique a2) := by
  unfold int_over_union
  rw [List.map_map]
  exact List.map_id' _

lemma exists_zip_of_mem {v : ℤ} : ∀ {a1 a2 : List ℤ}, a1.length = a2.length →
    v ∈ a1 ∨ v ∈ a2 → ∃ x ∈ a1.zip a2, x.1 = v ∨ x.2 = v := by
  intro a1
  induction a1 with
  | nil =>
    intro a2 h hv
    cases a2 with
    | nil => simp at hv
    | cons y l2 => simp at h
  | cons x l ih =>
    intro a2 h hv
    cases a2 with
    | nil => simp at h
    | cons y l2 =>
      simp only [List.length_cons, Nat.succ.injEq] at h
      by_cases hvx : v = x
      · exact ⟨(x, y), by simp [List.zip_cons_cons], Or.inl hvx.symm⟩
      by_cases hvy : v = y
      · exact ⟨(x, y), by simp [List.zip_cons_cons], Or.inr hvy.symm⟩
      have hv' : v ∈ l ∨ v ∈ l2 := by
        rcases hv with hv | hv
        · rcases List.mem_cons.mp hv with hc | hc
          · exact absurd hc hvx
          · exact Or.inl hc
        · rcases List.mem_cons.mp hv with hc | hc
          · exact absurd hc hvy
          · exact Or.inr hc
      obtain ⟨x', hx', hp⟩ := ih h hv'
      exact ⟨x', by rw [List.zip_cons_cons]; exact List.mem_cons.mpr (Or.inr hx'), hp⟩

/-- C4: `int_over_union` returns a mapping whose key set is exactly the
distinct values occurring in either array (each key once), mapping each
value v to (positions where both arrays are v) / (positions where at least
one is v), always in [0, 1]; on `[1,1,0]` vs `[1,0,0]` the result is
`{0: 1/2, 1: 1/2}`. -/
theorem C4_int_over_union (a1 a2 : List ℤ) (h : a1.length = a2.length) :
    (∀ v : ℤ, v ∈ (int_over_union a1 a2).map Prod.fst ↔ v ∈ a1 ∨ v ∈ a2) ∧
    ((int_over_union a1 a2).map Prod.fst).Nodup ∧
    (∀ v : ℤ, ∀ q : ℚ, (v, q) ∈ int_over_union a1 a2 →
      q = ((a1.zip a2).countP (fun x => decide (x.1 = v ∧ x.2 = v)) : ℚ) /
          ((a1.zip a2).countP (fun x => decide (x.1 = v ∨ x.2 = v)) : ℚ) ∧
      0 ≤ q ∧ q ≤ 1) ∧
    int_over_union [1, 1, 0] [1, 0, 0] = [(0, 1 / 2), (1, 1 / 2)] := by
  refine ⟨?_, ?_, ?_, ?_⟩
  · intro v
    rw [keys_int_over_union, mem_npUnique, List.mem_append, mem_npUnique, mem_npUnique]
  · rw [keys_int_over_union]
    exact nodup_npUnique _
  · intro v q hvq
    unfold int_over_union at hvq
    obtain ⟨w, hw, heq⟩ := List.mem_map.mp hvq
    obtain ⟨rfl, rfl⟩ := Prod.mk.injEq .. ▸ heq
    refine ⟨rfl, ?_, ?_⟩
    · positivity
    · have hv : w ∈ a1 ∨ w ∈ a2 := by
        rw [mem_npUnique, List.mem_append, mem_npUnique, mem_npUnique] at hw
        exact hw
      obtain ⟨x, hx, hp⟩ := exists_zip_of_mem h hv
      have hU : 0 < (a1.zip a2).countP (fun x => decide (x.1 = w ∨ x.2 = w)) := by
        rw [List.countP_pos_iff]
        exact ⟨x, hx, by simpa using hp⟩
      have hUq : (0 : ℚ) < ((a1.zip a2).countP (fun x => decide (x.1 = w ∨ x.2 = w)) : ℚ) := by
        exact_mod_cast hU
      rw [div_le_one hUq]
      have hle : (a1.zip a2).countP (fun x => decide (x.1 = w ∧ x.2 = w)) ≤
          (a1.zip a2).countP (fun x => decide (x.1 = w ∨ x.2 = w)) := by
        apply List.countP_mono_left
        intro x _ hx
        simp only [decide_eq_true_eq] at hx ⊢
        exact Or.inl hx.1
      exact_mod_cast hle
  · norm_num [int_over_union, npUnique, insertSorted, List.countP, List.countP.go,
      List.zip, List.zipWith]

/-- C4, witness: the documented example. -/
theorem C4_int_over_union_witness :
    int_over_union [1, 1, 0] [1, 0, 0] = [(0, 1 / 2), (1, 1 / 2)] :=
  (C4_int_over_union [1, 1, 0] [1, 0, 0] rfl).2.2.2

/-! ### Claims C5, C6, C10 -/

lemma runsFlatten_cons (g : ℕ × ℕ) (gs : List (ℕ × ℕ)) :
    runsFlatten (g :: gs) = List.replicate g.2 g.1 ++ runsFlatten gs := rfl

lemma groupRuns_cons_nil {x : ℕ} {l : List ℕ} (h : groupRuns l = []) :
    groupRuns (x :: l) = [(x, 1)] := by
  simp only [groupRuns, h]

lemma groupRuns_cons_cons {x b n : ℕ} {l : List ℕ} {gs : List (ℕ × ℕ)}
    (h : groupRuns l = (b, n) :: gs) :
    groupRuns (x :: l) =
      if x = b then (x, n + 1) :: gs else (x, 1) :: (b, n) :: gs := by
  simp only [groupRuns, h]

lemma runsFlatten_groupRuns : ∀ a : List ℕ, runsFlatten (groupRuns a) = a := by
  intro a
  induction a with
  | nil => rfl
  | cons x l ih =>
    cases hgl : groupRuns l with
    | nil =>
      rw [hgl] at ih
      have hl : l = [] := by simpa [runsFlatten] using ih.symm
      subst hl
      rfl
    | cons g gs =>
      obtain ⟨b, n⟩ := g
      rw [hgl, runsFlatten_cons] at ih
      rw [groupRuns_cons_cons hgl]
      by_cases hxb : x = b
      · subst hxb
        rw [if_pos rfl, runsFlatten_cons]
        simp only [List.replicate_succ, List.cons_append]
        rw [ih]
      · rw [if_neg hxb, runsFlatten_cons, runsFlatten_cons]
        simp only [List.replicate_succ, List.replicate_zero, List.cons_append,
          List.nil_append]
        rw [ih]

lemma length_runsFlatten : ∀ gs : List (ℕ × ℕ),
    (runsFlatten gs).length = (gs.map Prod.snd).sum := by
  intro gs
  induction gs with
  | nil => rfl
  | cons g gs ih =>
    rw [runsFlatten_cons, List.length_append, List.length_replicate, ih,
      List.map_cons, List.sum_cons]

lemma groupRuns_sum_snd (a : List ℕ) : ((groupRuns a).map Prod.snd).sum = a.length := by
  rw [← length_runsFlatten, runsFlatten_groupRuns]

lemma groupRuns_pos : ∀ (a : List ℕ), ∀ g ∈ groupRuns a, 0 < g.2 := by
  intro a
  induction a with
  | nil => intro g hg; simp [groupRuns] at hg
  | cons x l ih =>
    intro g hg
    cases hgl : groupRuns l with
    | nil =>
      rw [groupRuns_cons_nil hgl] at hg
      simp at hg
      simp [hg]
    | cons g' gs =>
      obtain ⟨b, n⟩ := g'
      rw [groupRuns_cons_cons hgl] at hg
      rw [hgl] at ih
      by_cases hxb : x = b
      · rw [if_pos hxb] at hg
        rcases List.mem_cons.mp hg with rfl | hg
        · simp
        · exact ih g (List.mem_cons_of_mem _ hg)
      · rw [if_neg hxb] at hg
        rcases List.mem_cons.mp hg with rfl | hg
        · simp
        · exact ih g hg

lemma groupRuns_chain : ∀ a : List ℕ,
    List.Chain' (fun g h' => g.1 ≠ h'.1) (groupRuns a) := by
  intro a
  induction a with
  | nil => simp [groupRuns]
  | cons x l ih =>
    cases hgl : groupRuns l with
    | nil => rw [groupRuns_cons_nil hgl]; simp
    | cons g' gs =>
      obtain ⟨b, n⟩ := g'
      rw [groupRuns_cons_cons hgl]
      rw [hgl] at ih
      by_cases hxb : x = b
      · rw [if_pos hxb]
        cases gs with
        | nil => simp
        | cons g2 gs2 =>
          rw [List.chain'_cons] at ih ⊢
          exact ⟨hxb ▸ ih.1, ih.2⟩
      · rw [if_neg hxb]
        rw [List.chain'_cons]
        exact ⟨hxb, ih⟩

lemma mem_runsFlatten_key : ∀ (gs : List (ℕ × ℕ)) (g : ℕ × ℕ), g ∈ gs → 0 < g.2 →
    g.1 ∈ runsFlatten gs := by
  intro gs
  induction gs with
  | nil => intro g hg; simp at hg
  | cons g' gs ih =>
    intro g hg hpos
    rw [runsFlatten_cons]
    rcases List.mem_cons.mp hg with rfl | hg
    · exact List.mem_append_left _ (List.mem_replicate.mpr ⟨by omega, rfl⟩)
    · exact List.mem_append_right _ (ih g hg hpos)

lemma mem_groupRuns_key {a : List ℕ} {g : ℕ × ℕ} (hg : g ∈ groupRuns a) : g.1 ∈ a :=
  runsFlatten_groupRuns a ▸ mem_runsFlatten_key _ _ hg (groupRuns_pos a g hg)

lemma le_listMax : ∀ {x : ℕ} {l : List ℕ}, x ∈ l → x ≤ listMax l := by
  intro x l
  induction l with
  | nil => intro hx; simp at hx
  | cons y l ih =>
    intro hx
    rcases List.mem_cons.mp hx with rfl | hx
    · exact le_max_left _ _
    · exact le_trans (ih hx) (le_max_right _ _)

lemma sum_map_add {α : Type} (f g : α → ℕ) (l : List α) :
    (l.map fun x => f x + g x).sum = (l.map f).sum + (l.map g).sum := by
  induction l with
  | nil => rfl
  | cons x l ih =>
    simp only [List.map_cons, List.sum_cons, ih]
    omega

lemma sum_indicator_range {a x : ℕ} : ∀ {N : ℕ}, a < N →
    ((List.range N).map fun k => if a = k then x else 0).sum = x := by
  intro N
  induction N with
  | zero => intro h; exact absurd h (Nat.not_lt_zero a)
  | succ N ih =>
    intro h
    rw [List.range_succ, List.map_append, List.sum_append]
    by_cases haN : a = N
    · subst haN
      have h0 : ((List.range a).map fun k => if a = k then x else 0).sum = 0 := by
        apply List.sum_eq_zero
        intro y hy
        obtain ⟨k, hk, rfl⟩ := List.mem_map.mp hy
        have hka : k < a := List.mem_range.mp hk
        rw [if_neg (by omega)]
      rw [h0]
      simp
    · have haN' : a < N := by omega
      rw [ih haN']
      simp [haN]

lemma sum_filtered_partition : ∀ (gs : List (ℕ × ℕ)) (N : ℕ), (∀ g ∈ gs, g.1 < N) →
    ((List.range N).map fun k =>
      (((gs.filter fun g => decide (g.1 = k)).map Prod.snd).sum)).sum
      = (gs.map Prod.snd).sum := by
  intro gs
  induction gs with
  | nil =>
    intro N _
    show _ = 0
    apply List.sum_eq_zero
    intro y hy
    obtain ⟨k, -, rfl⟩ := List.mem_map.mp hy
    simp
  | cons g gs ih =>
    intro N h
    have hg : g.1 < N := h g (by simp)
    have hgs : ∀ g' ∈ gs, g'.1 < N := fun g' hg' => h g' (by simp [hg'])
    have hsplit : ∀ k : ℕ,
        (((g :: gs).filter fun g' => decide (g'.1 = k)).map Prod.snd).sum
        = (if g.1 = k then g.2 else 0) +
          (((gs.filter fun g' => decide (g'.1 = k)).map Prod.snd).sum) := by
      intro k
      by_cases hk : g.1 = k
      · simp [List.filter_cons, hk]
      · simp [List.filter_cons, hk]
    simp only [hsplit]
    rw [sum_map_add, sum_indicator_range hg, ih N hgs, List.map_cons, List.sum_cons]

/-- C5: on a non-empty array, `run_lengths` returns a mapping whose keys are
exactly `0 .. max(array)` in order, each key mapped to the ordered run
lengths of that value taken from the `groupby` decomposition; values absent
from the array get `[]`.  The `groupby` decomposition really is the list of
maximal contiguous runs: flattening it reproduces the array, adjacent runs
carry different values and every run length is positive.  The documented
example evaluates as specified. -/
theorem C5_run_lengths (a : List ℕ) (m : List (ℕ × List ℕ))
    (h : run_lengths a = some m) :
    m.map Prod.fst = List.range (listMax a + 1) ∧
    (∀ (k : ℕ) (lens : List ℕ), (k, lens) ∈ m →
      lens = ((groupRuns a).filter fun g => decide (g.1 = k)).map Prod.snd) ∧
    (∀ (k : ℕ) (lens : List ℕ), (k, lens) ∈ m → k ∉ a → lens = []) ∧
    runsFlatten (groupRuns a) = a ∧
    List.Chain' (fun g h' => g.1 ≠ h'.1) (groupRuns a) ∧
    (∀ g ∈ groupRuns a, 0 < g.2) ∧
    run_lengths [1, 1, 1, 0, 0, 4, 4, 4, 4, 4, 4, 0, 1, 1, 1, 1] =
      some [(0, [2, 1]), (1, [3, 4]), (2, []), (3, []), (4, [6])] := by
  unfold run_lengths at h
  split at h
  · cases h
  · have hm := (Option.some.inj h).symm
    subst hm
    refine ⟨?_, ?_, ?_, runsFlatten_groupRuns a, groupRuns_chain a,
      groupRuns_pos a, by rfl⟩
    · rw [List.map_map]
      exact List.map_id' _
    · intro k lens hkl
      obtain ⟨k', hk', heq⟩ := List.mem_map.mp hkl
      obtain ⟨rfl, rfl⟩ := Prod.mk.injEq .. ▸ heq
      rfl
    · intro k lens hkl hka
      obtain ⟨k', hk', heq⟩ := List.mem_map.mp hkl
      obtain ⟨rfl, rfl⟩ := Prod.mk.injEq .. ▸ heq
      rw [List.map_eq_nil_iff, List.filter_eq_nil_iff]
      intro g hg
      simp only [decide_eq_true_eq]
      intro hgk
      exact hka (hgk ▸ mem_groupRuns_key hg)

/-- C5, witness: the documented example itself. -/
theorem C5_run_lengths_witness :
    run_lengths [1, 1, 1, 0, 0, 4, 4, 4, 4, 4, 4, 0, 1, 1, 1, 1] =
      some [(0, [2, 1]), (1, [3, 4]), (2, []), (3, []), (4, [6])] :=
  (C5_run_lengths [1, 1, 1, 0, 0, 4, 4, 4, 4, 4, 4, 0, 1, 1, 1, 1]
    [(0, [2, 1]), (1, [3, 4]), (2, []), (3, []), (4, [6])] (by rfl)).2.2.2.2.2.2

/-- C6: `run_lengths` fails (returns nothing, as `np.max` of an empty
array raises) exactly on the empty array; any non-empty array produces a
mapping. -/
theorem C6_run_lengths_empty (a : List ℕ) : run_lengths a = none ↔ a = [] := by
  unfold run_lengths
  split
  · next h => simp [h]
  · next h => simp [h]

/-- C10: the run lengths over all keys sum to the length of the input
array. -/
theorem C10_run_lengths_conservation (a : List ℕ) (m : List (ℕ × List ℕ))
    (h : run_lengths a = some m) :
    (m.map fun g => g.2.sum).sum = a.length := by
  unfold run_lengths at h
  split at h
  · cases h
  · have hm := (Option.some.inj h).symm
    subst hm
    rw [List.map_map]
    show ((List.range (listMax a + 1)).map fun k =>
      (((groupRuns a).filter fun g => decide (g.1 = k)).map Prod.snd).sum).sum = _
    rw [sum_filtered_partition _ _
      (fun g hg => Nat.lt_succ_of_le (le_listMax (mem_groupRuns_key hg))),
      groupRuns_sum_snd]

/-- C10, witness at the documented example: 2+1+3+4+6 = 16. -/
theorem C10_run_lengths_conservation_witness :
    (([(0, [2, 1]), (1, [3, 4]), (2, ([] : List ℕ)), (3, []), (4, [6])]).map
      fun g => g.2.sum).sum =
      ([1, 1, 1, 0, 0, 4, 4, 4, 4, 4, 4, 0, 1, 1, 1, 1] : List ℕ).length :=
  C10_run_lengths_conservation [1, 1, 1, 0, 0, 4, 4, 4, 4, 4, 4, 0, 1, 1, 1, 1]
    [(0, [2, 1]), (1, [3, 4]), (2, []), (3, []), (4, [6])] (by rfl)

/-! ### Lemmas: the CSV loader -/

lemma splitRecs_some_mem : ∀ {ml : List String} {l : List MetricsRec}
    {ds : DSLabel} {e : ℚ} {cp dt : String} {r : CsvRow},
    splitRecs ds e cp dt r ml = some l →
    ∀ rec ∈ l, rec.dataset = ds ∧ rec.epoch = e ∧ rec.dtype = dt ∧
      rec.loss ∈ ml ∧ getCol r (cp ++ rec.loss) = some rec.val := by
  intro ml
  induction ml with
  | nil =>
    intro l ds e cp dt r h rec hrec
    simp only [splitRecs] at h
    obtain rfl := Option.some.inj h
    simp at hrec
  | cons m ms ih =>
    intro l ds e cp dt r h rec hrec
    cases hc : getCol r (cp ++ m) with
    | none => simp [splitRecs, hc] at h
    | some v =>
      cases hs : splitRecs ds e cp dt r ms with
      | none => simp [splitRecs, hc, hs] at h
      | some rest =>
        simp only [splitRecs, hc, hs] at h
        obtain rfl := Option.some.inj h
        rcases List.mem_cons.mp hrec with rfl | hrec
        · exact ⟨rfl, rfl, rfl, List.mem_cons_self .., hc⟩
        · obtain ⟨h1, h2, h3, h4, h5⟩ := ih hs rec hrec
          exact ⟨h1, h2, h3, List.mem_cons_of_mem _ h4, h5⟩

lemma splitRecs_filter : ∀ {ml : List String} {l : List MetricsRec}
    {ds : DSLabel} {e : ℚ} {cp dt : String} {r : CsvRow} {m : String},
    splitRecs ds e cp dt r ml = some l → ml.Nodup → m ∈ ml →
    ∃ v, getCol r (cp ++ m) = some v ∧
      l.filter (fun rec => decide (rec.loss = m)) = [⟨ds, e, dt, m, v⟩] := by
  intro ml
  induction ml with
  | nil => intro l ds e cp dt r m h hnd hm; simp at hm
  | cons mh ms ih =>
    intro l ds e cp dt r m h hnd hm
    cases hc : getCol r (cp ++ mh) with
    | none => simp [splitRecs, hc] at h
    | some v' =>
      cases hs : splitRecs ds e cp dt r ms with
      | none => simp [splitRecs, hc, hs] at h
      | some rest =>
        simp only [splitRecs, hc, hs] at h
        obtain rfl := Option.some.inj h
        rw [List.nodup_cons] at hnd
        rcases List.mem_cons.mp hm with rfl | hm'
        · refine ⟨v', hc, ?_⟩
          rw [List.filter_cons]
          rw [if_pos (by simp)]
          have hnil : rest.filter (fun rec => decide (rec.loss = m)) = [] := by
            rw [List.filter_eq_nil_iff]
            intro rec hrec
            have hmem := splitRecs_some_mem hs rec hrec
            simp only [decide_eq_true_eq]
            intro hlm
            exact hnd.1 (hlm ▸ hmem.2.2.2.1)
          rw [hnil]
        · have hmhm : mh ≠ m := fun he => hnd.1 (he ▸ hm')
          obtain ⟨v, hv, hfil⟩ := ih hs hnd.2 hm'
          refine ⟨v, hv, ?_⟩
          rw [List.filter_cons]
          rw [if_neg (by simp [hmhm])]
          exact hfil

lemma splitRecs_none_of_col : ∀ {ml : List String} {m : String}
    {ds : DSLabel} {e : ℚ} {cp dt : String} {r : CsvRow},
    m ∈ ml → getCol r (cp ++ m) = none → splitRecs ds e cp dt r ml = none := by
  intro ml
  induction ml with
  | nil => intro m ds e cp dt r hm; simp at hm
  | cons mh ms ih =>
    intro m ds e cp dt r hm hc
    rcases List.mem_cons.mp hm with rfl | hm'
    · cases hs : splitRecs ds e cp dt r ms <;> simp [splitRecs, hc, hs]
    · cases hc' : getCol r (cp ++ mh) with
      | none => cases hs : splitRecs ds e cp dt r ms <;> simp [splitRecs, hc', hs]
      | some v => simp [splitRecs, hc', ih hm' hc]

lemma rowRecords_true_eq {expt_ids : Option (List String)} {ml : List String}
    {r : CsvRow} {a : List MetricsRec}
    (h : rowRecords expt_ids true ml r = some a) :
    ∃ ds, datasetLabel expt_ids r.dataset = some ds ∧
      splitRecs ds r.epoch "test_" "test" r ml = some a := by
  cases hd : datasetLabel expt_ids r.dataset with
  | none => simp [rowRecords, hd] at h
  | some ds =>
    simp only [rowRecords, hd, if_true] at h
    exact ⟨ds, rfl, h⟩

lemma rowRecords_false_eq {expt_ids : Option (List String)} {ml : List String}
    {r : CsvRow} {a : List MetricsRec}
    (h : rowRecords expt_ids false ml r = some a) :
    ∃ ds vs ts, datasetLabel expt_ids r.dataset = some ds ∧
      splitRecs ds r.epoch "val_" "val" r ml = some vs ∧
      splitRecs ds r.epoch "tr_" "train" r ml = some ts ∧ a = vs ++ ts := by
  cases hd : datasetLabel expt_ids r.dataset with
  | none => simp [rowRecords, hd] at h
  | some ds =>
    simp only [rowRecords, hd, Bool.false_eq_true, if_false] at h
    cases hv : splitRecs ds r.epoch "val_" "val" r ml with
    | none => simp [hv] at h
    | some vs =>
      cases ht : splitRecs ds r.epoch "tr_" "train" r ml with
      | none => simp [hv, ht] at h
      | some ts =>
        simp only [hv, ht] at h
        exact ⟨ds, vs, ts, rfl, hv, ht, (Option.some.inj h).symm⟩

lemma rowRecords_some_mem {expt_ids : Option (List String)} {test : Bool}
    {ml : List String} {r : CsvRow} {l : List MetricsRec}
    (h : rowRecords expt_ids test ml r = some l) :
    ∀ rec ∈ l, datasetLabel expt_ids r.dataset = some rec.dataset ∧
      rec.epoch = r.epoch := by
  intro rec hrec
  cases test with
  | true =>
    obtain ⟨ds, hd, hs⟩ := rowRecords_true_eq h
    obtain ⟨h1, h2, -, -, -⟩ := splitRecs_some_mem hs rec hrec
    exact ⟨h1 ▸ hd, h2⟩
  | false =>
    obtain ⟨ds, vs, ts, hd, hv, ht, rfl⟩ := rowRecords_false_eq h
    rcases List.mem_append.mp hrec with hrec | hrec
    · obtain ⟨h1, h2, -, -, -⟩ := splitRecs_some_mem hv rec hrec
      exact ⟨h1 ▸ hd, h2⟩
    · obtain ⟨h1, h2, -, -, -⟩ := splitRecs_some_mem ht rec hrec
      exact ⟨h1 ▸ hd, h2⟩

lemma loadRows_cons_eq {expt_ids : Option (List String)} {test : Bool}
    {ml : List String} {r : CsvRow} {rs : List CsvRow} {out : List MetricsRec}
    (h : loadRows expt_ids test ml (r :: rs) = some out) :
    ∃ a b, rowRecords expt_ids test ml r = some a ∧
      loadRows expt_ids test ml rs = some b ∧ out = a ++ b := by
  cases ha : rowRecords expt_ids test ml r with
  | none => simp [loadRows, ha] at h
  | some a =>
    cases hb : loadRows expt_ids test ml rs with
    | none => simp [loadRows, ha, hb] at h
    | some b =>
      simp only [loadRows, ha, hb] at h
      exact ⟨a, b, rfl, rfl, (Option.some.inj h).symm⟩

lemma loadRows_some_mem {expt_ids : Option (List String)} {test : Bool}
    {ml : List String} : ∀ {csv : List CsvRow} {out : List MetricsRec},
    loadRows expt_ids test ml csv = some out →
    ∀ rec ∈ out, ∃ r ∈ csv, datasetLabel expt_ids r.dataset = some rec.dataset ∧
      rec.epoch = r.epoch := by
  intro csv
  induction csv with
  | nil =>
    intro out h rec hrec
    simp only [loadRows] at h
    obtain rfl := Option.some.inj h
    simp at hrec
  | cons r rs ih =>
    intro out h rec hrec
    obtain ⟨a, b, ha, hb, rfl⟩ := loadRows_cons_eq h
    rcases List.mem_append.mp hrec with hrec | hrec
    · exact ⟨r, List.mem_cons_self .., rowRecords_some_mem ha rec hrec⟩
    · obtain ⟨r2, hr2, hp⟩ := ih hb rec hrec
      exact ⟨r2, List.mem_cons_of_mem _ hr2, hp⟩

lemma load_eq_some {csv : List CsvRow} {ml : List String}
    {expt_ids : Option (List String)} {test : Bool} {out : List MetricsRec}
    (h : load_metrics_csv_as_df csv ml expt_ids test = some out) :
    loadRows expt_ids test ml csv = some out := by
  unfold load_metrics_csv_as_df at h
  split at h
  · cases h
  · exact h

lemma loadRows_filter_test {expt_ids : Option (List String)} {ml : List String} :
    ∀ {csv : List CsvRow} {out : List MetricsRec},
    loadRows expt_ids true ml csv = some out → ml.Nodup →
    (csv.map fun r' => datasetLabel expt_ids r'.dataset).Nodup →
    ∀ r ∈ csv, ∀ m ∈ ml, ∀ ds : DSLabel, datasetLabel expt_ids r.dataset = some ds →
    ∃ v, getCol r ("test_" ++ m) = some v ∧
      out.filter (fun rec => decide (rec.dataset = ds ∧ rec.loss = m)) =
        [⟨ds, r.epoch, "test", m, v⟩] := by
  intro csv
  induction csv with
  | nil => intro out h hnd hlab r hr; simp at hr
  | cons r' rs ih =>
    intro out h hnd hlab r hr m hm ds hds
    obtain ⟨a, b, ha, hb, rfl⟩ := loadRows_cons_eq h
    rw [List.filter_append]
    rw [List.map_cons, List.nodup_cons] at hlab
    rcases List.mem_cons.mp hr with rfl | hr'
    · obtain ⟨ds', hd', hsr⟩ := rowRecords_true_eq ha
      obtain rfl : ds = ds' := Option.some.inj (hds.symm.trans hd')
      obtain ⟨v, hv, hfil⟩ := splitRecs_filter hsr hnd hm
      refine ⟨v, hv, ?_⟩
      have hbnil : b.filter (fun rec => decide (rec.dataset = ds ∧ rec.loss = m)) = [] := by
        rw [List.filter_eq_nil_iff]
        intro rec hrec
        obtain ⟨r2, hr2, hlab2, -⟩ := loadRows_some_mem hb rec hrec
        simp only [decide_eq_true_eq, not_and]
        intro hdeq _
        apply hlab.1
        have hmem : datasetLabel expt_ids r2.dataset ∈
            rs.map fun r'' => datasetLabel expt_ids r''.dataset :=
          List.mem_map.mpr ⟨r2, hr2, rfl⟩
        rw [hlab2, hdeq] at hmem
        rw [hds]
        exact hmem
      have hcongr : a.filter (fun rec => decide (rec.dataset = ds ∧ rec.loss = m)) =
          a.filter (fun rec => decide (rec.loss = m)) := by
        apply List.filter_congr
        intro rec hrec
        have hmem := splitRecs_some_mem hsr rec hrec
        exact decide_eq_decide.mpr (by simp [hmem.1])
      rw [hbnil, List.append_nil, hcongr, hfil]
    · have hanil : a.filter (fun rec => decide (rec.dataset = ds ∧ rec.loss = m)) = [] := by
        rw [List.filter_eq_nil_iff]
        intro rec hrec
        have hmem := rowRecords_some_mem ha rec hrec
        simp only [decide_eq_true_eq, not_and]
        intro hdeq _
        apply hlab.1
        have hgoal : datasetLabel expt_ids r'.dataset = some ds := by
          rw [hmem.1, hdeq]
        rw [hgoal]
        exact List.mem_map.mpr ⟨r, hr', hds⟩
      rw [hanil, List.nil_append]
      exact ih hb hnd hlab.2 r hr' m hm ds hds

lemma loadRows_filter_train_val {expt_ids : Option (List String)} {ml : List String} :
    ∀ {csv : List CsvRow} {out : List MetricsRec},
    loadRows expt_ids false ml csv = some out → ml.Nodup →
    (csv.map fun r' => (datasetLabel expt_ids r'.dataset, r'.epoch)).Nodup →
    ∀ r ∈ csv, ∀ m ∈ ml, ∀ ds : DSLabel, datasetLabel expt_ids r.dataset = some ds →
    ∃ v w, getCol r ("val_" ++ m) = some v ∧ getCol r ("tr_" ++ m) = some w ∧
      out.filter (fun rec =>
        decide (rec.dataset = ds ∧ rec.epoch = r.epoch ∧ rec.loss = m)) =
        [⟨ds, r.epoch, "val", m, v⟩, ⟨ds, r.epoch, "train", m, w⟩] := by
  intro csv
  induction csv with
  | nil => intro out h hnd hlab r hr; simp at hr
  | cons r' rs ih =>
    intro out h hnd hlab r hr m hm ds hds
    obtain ⟨a, b, ha, hb, rfl⟩ := loadRows_cons_eq h
    rw [List.filter_append]
    rw [List.map_cons, List.nodup_cons] at hlab
    rcases List.mem_cons.mp hr with rfl | hr'
    · obtain ⟨ds', vs, ts, hd', hsv, hst, rfl⟩ := rowRecords_false_eq ha
      obtain rfl : ds = ds' := Option.some.inj (hds.symm.trans hd')
      obtain ⟨v, hv, hfv⟩ := splitRecs_filter hsv hnd hm
      obtain ⟨w, hw, hfw⟩ := splitRecs_filter hst hnd hm
      refine ⟨v, w, hv, hw, ?_⟩
      have hbnil : b.filter (fun rec =>
          decide (rec.dataset = ds ∧ rec.epoch = r.epoch ∧ rec.loss = m)) = [] := by
        rw [List.filter_eq_nil_iff]
        intro rec hrec
        obtain ⟨r2, hr2, hlab2, hep2⟩ := loadRows_some_mem hb rec hrec
        simp only [decide_eq_true_eq, not_and]
        intro hdeq hepq _
        apply hlab.1
        have hmem : (datasetLabel expt_ids r2.dataset, r2.epoch) ∈
            rs.map fun r'' => (datasetLabel expt_ids r''.dataset, r''.epoch) :=
          List.mem_map.mpr ⟨r2, hr2, rfl⟩
        rw [hlab2, hdeq, ← hep2, hepq] at hmem
        rw [hds]
        exact hmem
      have hcv : vs.filter (fun rec =>
          decide (rec.dataset = ds ∧ rec.epoch = r.epoch ∧ rec.loss = m)) =
          vs.filter (fun rec => decide (rec.loss = m)) := by
        apply List.filter_congr
        intro rec hrec
        have hmem := splitRecs_some_mem hsv rec hrec
        exact decide_eq_decide.mpr (by simp [hmem.1, hmem.2.1])
      have hct : ts.filter (fun rec =>
          decide (rec.dataset = ds ∧ rec.epoch = r.epoch ∧ rec.loss = m)) =
          ts.filter (fun rec => decide (rec.loss = m)) := by
        apply List.filter_congr
        intro rec hrec
        have hmem := splitRecs_some_mem hst rec hrec
        exact decide_eq_decide.mpr (by simp [hmem.1, hmem.2.1])
      rw [List.filter_append, hbnil, List.append_nil, hcv, hct, hfv, hfw]
      rfl
    · have hanil : a.filter (fun rec =>
          decide (rec.dataset = ds ∧ rec.epoch = r.epoch ∧ rec.loss = m)) = [] := by
        rw [List.filter_eq_nil_iff]
        intro rec hrec
        have hmem := rowRecords_some_mem ha rec hrec
        simp only [decide_eq_true_eq, not_and]
        intro hdeq hepq _
        apply hlab.1
        have hgoal : (datasetLabel expt_ids r'.dataset, r'.epoch) = (some ds, r.epoch) := by
          rw [hmem.1, hdeq, ← hmem.2, hepq]
        rw [hgoal]
        exact List.mem_map.mpr ⟨r, hr', by rw [hds]⟩
      rw [hanil, List.nil_append]
      exact ih hb hnd hlab.2 r hr' m hm ds hds

lemma loadRows_val_filter {expt_ids : Option (List String)} {ml : List String} :
    ∀ {csv : List CsvRow} {out : List MetricsRec},
    loadRows expt_ids false ml csv = some out → ml.Nodup →
    (csv.map fun r' => r'.epoch).Nodup →
    ∀ r ∈ csv, ∀ m ∈ ml, ∀ ds : DSLabel, datasetLabel expt_ids r.dataset = some ds →
    ∃ v, getCol r ("val_" ++ m) = some v ∧
      out.filter (fun rec =>
        decide (rec.dtype = "val" ∧ rec.epoch = r.epoch ∧ rec.loss = m)) =
        [⟨ds, r.epoch, "val", m, v⟩] := by
  intro csv
  induction csv with
  | nil => intro out h hnd hlab r hr; simp at hr
  | cons r' rs ih =>
    intro out h hnd hlab r hr m hm ds hds
    obtain ⟨a, b, ha, hb, rfl⟩ := loadRows_cons_eq h
    rw [List.filter_append]
    rw [List.map_cons, List.nodup_cons] at hlab
    rcases List.mem_cons.mp hr with rfl | hr'
    · obtain ⟨ds', vs, ts, hd', hsv, hst, rfl⟩ := rowRecords_false_eq ha
      obtain rfl : ds = ds' := Option.some.inj (hds.symm.trans hd')
      obtain ⟨v, hv, hfv⟩ := splitRecs_filter hsv hnd hm
      refine ⟨v, hv, ?_⟩
      have hbnil : b.filter (fun rec =>
          decide (rec.dtype = "val" ∧ rec.epoch = r.epoch ∧ rec.loss = m)) = [] := by
        rw [List.filter_eq_nil_iff]
        intro rec hrec
        obtain ⟨r2, hr2, -, hep2⟩ := loadRows_some_mem hb rec hrec
        simp only [decide_eq_true_eq, not_and]
        intro _ hepq _
        exact hlab.1 (List.mem_map.mpr ⟨r2, hr2, by rw [← hep2]; exact hepq⟩)
      have hcv : vs.filter (fun rec =>
          decide (rec.dtype = "val" ∧ rec.epoch = r.epoch ∧ rec.loss = m)) =
          vs.filter (fun rec => decide (rec.loss = m)) := by
        apply List.filter_congr
        intro rec hrec
        have hmem := splitRecs_some_mem hsv rec hrec
        exact decide_eq_decide.mpr (by simp [hmem.2.1, hmem.2.2.1])
      have hct : ts.filter (fun rec =>
          decide (rec.dtype = "val" ∧ rec.epoch = r.epoch ∧ rec.loss = m)) = [] := by
        rw [List.filter_eq_nil_iff]
        intro rec hrec
        have hmem := splitRecs_some_mem hst rec hrec
        simp only [decide_eq_true_eq, not_and]
        intro hdt
        exact absurd (hmem.2.2.1.symm.trans hdt) (by decide)
      rw [List.filter_append, hbnil, List.append_nil, hcv, hct, hfv, List.append_nil]
    · have hanil : a.filter (fun rec =>
          decide (rec.dtype = "val" ∧ rec.epoch = r.epoch ∧ rec.loss = m)) = [] := by
        rw [List.filter_eq_nil_iff]
        intro rec hrec
        have hmem := rowRecords_some_mem ha rec hrec
        simp only [decide_eq_true_eq, not_and]
        intro _ hepq _
        exact hlab.1 (List.mem_map.mpr ⟨r, hr', by rw [← hepq, hmem.2]⟩)
      rw [hanil, List.nil_append]
      exact ih hb hnd hlab.2 r hr' m hm ds hds

lemma loadRows_val_mem {expt_ids : Option (List String)} {ml : List String} :
    ∀ {csv : List CsvRow} {out : List MetricsRec},
    loadRows expt_ids false ml csv = some out →
    ∀ rec ∈ out, rec.dtype = "val" →
    ∃ r ∈ csv, datasetLabel expt_ids r.dataset = some rec.dataset ∧
      rec.epoch = r.epoch ∧ rec.loss ∈ ml ∧
      getCol r ("val_" ++ rec.loss) = some rec.val := by
  intro csv
  induction csv with
  | nil =>
    intro out h rec hrec
    simp only [loadRows] at h
    obtain rfl := Option.some.inj h
    simp at hrec
  | cons r' rs ih =>
    intro out h rec hrec hdt
    obtain ⟨a, b, ha, hb, rfl⟩ := loadRows_cons_eq h
    rcases List.mem_append.mp hrec with hrec | hrec
    · obtain ⟨ds, vs, ts, hd, hv, ht, rfl⟩ := rowRecords_false_eq ha
      rcases List.mem_append.mp hrec with hrec | hrec
      · have hmem := splitRecs_some_mem hv rec hrec
        exact ⟨r', List.mem_cons_self .., hmem.1 ▸ hd, hmem.2.1, hmem.2.2.2⟩
      · have hmem := splitRecs_some_mem ht rec hrec
        exact absurd (hmem.2.2.1.symm.trans hdt) (by decide)
    · obtain ⟨r2, hr2, hp⟩ := ih hb rec hrec hdt
      exact ⟨r2, List.mem_cons_of_mem _ hr2, hp⟩

lemma loadRows_none_of_row {expt_ids : Option (List String)} {test : Bool}
    {ml : List String} {r : CsvRow} : ∀ {csv : List CsvRow},
    r ∈ csv → rowRecords expt_ids test ml r = none →
    loadRows expt_ids test ml csv = none := by
  intro csv
  induction csv with
  | nil => intro hr; simp at hr
  | cons r' rs ih =>
    intro hr hnone
    rcases List.mem_cons.mp hr with rfl | hr'
    · cases hb : loadRows expt_ids test ml rs <;> simp [loadRows, hnone, hb]
    · cases ha : rowRecords expt_ids test ml r' <;> simp [loadRows, ha, ih hr' hnone]

lemma rowRecords_none_test {expt_ids : Option (List String)} {ml : List String}
    {r : CsvRow} {m : String} (hm : m ∈ ml)
    (hc : getCol r ("test_" ++ m) = none) :
    rowRecords expt_ids true ml r = none := by
  cases hd : datasetLabel expt_ids r.dataset with
  | none => simp [rowRecords, hd]
  | some ds => simp [rowRecords, hd, splitRecs_none_of_col hm hc]

lemma rowRecords_none_false {expt_ids : Option (List String)} {ml : List String}
    {r : CsvRow} {m : String} (hm : m ∈ ml)
    (hc : getCol r ("val_" ++ m) = none ∨ getCol r ("tr_" ++ m) = none) :
    rowRecords expt_ids false ml r = none := by
  cases hd : datasetLabel expt_ids r.dataset with
  | none => simp [rowRecords, hd]
  | some ds =>
    rcases hc with hc | hc
    · cases ht : splitRecs ds r.epoch "tr_" "train" r ml <;>
        simp [rowRecords, hd, splitRecs_none_of_col hm hc, ht]
    · cases hv : splitRecs ds r.epoch "val_" "val" r ml <;>
        simp [rowRecords, hd, splitRecs_none_of_col hm hc, hv]

/-! ### Claims C7, C8, C9 -/

/-- C7: when the reshape succeeds, in test mode each source row contributes,
for each metric m, exactly one long-format record per (dataset label, m)
pair (datasets assumed distinct across rows, as in the log format) with
dtype "test" and value taken from column `test_m`; in normal mode each
source row contributes, per (dataset label, epoch, m), exactly two records
-- the "val" one from `val_m` followed by the "train" one from `tr_m` --
sharing the row's epoch and dataset label. -/
theorem C7_long_format_rows (csv : List CsvRow) (ml : List String)
    (expt_ids : Option (List String)) (out : List MetricsRec) :
    (load_metrics_csv_as_df csv ml expt_ids true = some out →
      ml.Nodup →
      (csv.map fun r' => datasetLabel expt_ids r'.dataset).Nodup →
      ∀ r ∈ csv, ∀ m ∈ ml, ∀ ds : DSLabel,
        datasetLabel expt_ids r.dataset = some ds →
      ∃ v, getCol r ("test_" ++ m) = some v ∧
        out.filter (fun rec => decide (rec.dataset = ds ∧ rec.loss = m)) =
          [⟨ds, r.epoch, "test", m, v⟩]) ∧
    (load_metrics_csv_as_df csv ml expt_ids false = some out →
      ml.Nodup →
      (csv.map fun r' => (datasetLabel expt_ids r'.dataset, r'.epoch)).Nodup →
      ∀ r ∈ csv, ∀ m ∈ ml, ∀ ds : DSLabel,
        datasetLabel expt_ids r.dataset = some ds →
      ∃ v w, getCol r ("val_" ++ m) = some v ∧ getCol r ("tr_" ++ m) = some w ∧
        out.filter (fun rec =>
          decide (rec.dataset = ds ∧ rec.epoch = r.epoch ∧ rec.loss = m)) =
          [⟨ds, r.epoch, "val", m, v⟩, ⟨ds, r.epoch, "train", m, w⟩]) :=
  ⟨fun h => loadRows_filter_test (load_eq_some h),
   fun h => loadRows_filter_train_val (load_eq_some h)⟩

/-- C7, witness: a one-row CSV (dataset -1 = "all", epoch 1) with columns
`test_loss`, `val_loss`, `tr_loss`, loaded with metric list `["loss"]` in
both modes. -/
theorem C7_long_format_rows_witness :
    (([⟨DSLabel.str "all", 1, "test", "loss", 5⟩] : List MetricsRec).filter
      (fun rec => decide (rec.dataset = DSLabel.str "all" ∧ rec.loss = "loss")) =
      [⟨DSLabel.str "all", 1, "test", "loss", 5⟩]) ∧
    (([⟨DSLabel.str "all", 1, "val", "loss", 3⟩,
       ⟨DSLabel.str "all", 1, "train", "loss", 4⟩] : List MetricsRec).filter
      (fun rec => decide (rec.dataset = DSLabel.str "all" ∧ rec.epoch = 1 ∧
        rec.loss = "loss")) =
      [⟨DSLabel.str "all", 1, "val", "loss", 3⟩,
       ⟨DSLabel.str "all", 1, "train", "loss", 4⟩]) := by
  constructor
  · obtain ⟨v, hv, hfil⟩ :=
      (C7_long_format_rows
        [⟨-1, 1, [("test_loss", 5), ("val_loss", 3), ("tr_loss", 4)]⟩] ["loss"] none
        [⟨DSLabel.str "all", 1, "test", "loss", 5⟩]).1
        (by rfl) (by simp) (by simp)
        ⟨-1, 1, [("test_loss", 5), ("val_loss", 3), ("tr_loss", 4)]⟩ (by simp)
        "loss" (by simp) (DSLabel.str "all") (by rfl)
    obtain rfl : v = 5 := (Option.some.inj ((by rfl : getCol
      ⟨-1, 1, [("test_loss", 5), ("val_loss", 3), ("tr_loss", 4)]⟩
      ("test_" ++ "loss") = some 5).symm.trans hv)).symm
    simpa using hfil
  · obtain ⟨v, w, hv, hw, hfil⟩ :=
      (C7_long_format_rows
        [⟨-1, 1, [("test_loss", 5), ("val_loss", 3), ("tr_loss", 4)]⟩] ["loss"] none
        [⟨DSLabel.str "all", 1, "val", "loss", 3⟩,
         ⟨DSLabel.str "all", 1, "train", "loss", 4⟩]).2
        (by rfl) (by simp) (by simp)
        ⟨-1, 1, [("test_loss", 5), ("val_loss", 3), ("tr_loss", 4)]⟩ (by simp)
        "loss" (by simp) (DSLabel.str "all") (by rfl)
    obtain rfl : v = 3 := (Option.some.inj ((by rfl : getCol
      ⟨-1, 1, [("test_loss", 5), ("val_loss", 3), ("tr_loss", 4)]⟩
      ("val_" ++ "loss") = some 3).symm.trans hv)).symm
    obtain rfl : w = 4 := (Option.some.inj ((by rfl : getCol
      ⟨-1, 1, [("test_loss", 5), ("val_loss", 3), ("tr_loss", 4)]⟩
      ("tr_" ++ "loss") = some 4).symm.trans hw)).symm
    simpa using hfil

/-- C8: round trip for the "val" split.  When a wide table with pairwise
distinct epochs is reshaped in normal mode, then (a) for every source row
and metric m, the long records with dtype "val", that row's epoch and loss
m carry exactly the row's `val_m` value, and (b) every long record with
dtype "val" originates from a source row this way, so filtering to
dtype = "val" recovers exactly the original `val_*` values keyed by
(epoch, metric). -/
theorem C8_val_round_trip (csv : List CsvRow) (ml : List String)
    (expt_ids : Option (List String)) (out : List MetricsRec)
    (h : load_metrics_csv_as_df csv ml expt_ids false = some out)
    (hnd : ml.Nodup) (hep : (csv.map fun r' => r'.epoch).Nodup) :
    (∀ r ∈ csv, ∀ m ∈ ml, ∀ ds : DSLabel,
      datasetLabel expt_ids r.dataset = some ds →
      ∃ v, getCol r ("val_" ++ m) = some v ∧
        (out.filter (fun rec =>
          decide (rec.dtype = "val" ∧ rec.epoch = r.epoch ∧ rec.loss = m))).map
          MetricsRec.val = [v]) ∧
    (∀ rec ∈ out, rec.dtype = "val" →
      ∃ r ∈ csv, datasetLabel expt_ids r.dataset = some rec.dataset ∧
        rec.epoch = r.epoch ∧ rec.loss ∈ ml ∧
        getCol r ("val_" ++ rec.loss) = some rec.val) := by
  constructor
  · intro r hr m hm ds hds
    obtain ⟨v, hv, hfil⟩ :=
      loadRows_val_filter (load_eq_some h) hnd hep r hr m hm ds hds
    exact ⟨v, hv, by rw [hfil]; rfl⟩
  · exact loadRows_val_mem (load_eq_some h)

/-- C8, witness: a synthetic 3-row wide CSV with metrics "loss" and "fc";
the record with dtype "val", epoch 0, loss "loss" carries exactly the
first row's `val_loss` value 10. -/
theorem C8_val_round_trip_witness :
    (([⟨DSLabel.str "all", 0, "val", "loss", 10⟩,
       ⟨DSLabel.str "all", 0, "val", "fc", 30⟩,
       ⟨DSLabel.str "all", 0, "train", "loss", 20⟩,
       ⟨DSLabel.str "all", 0, "train", "fc", 40⟩,
       ⟨DSLabel.str "all", 1, "val", "loss", 11⟩,
       ⟨DSLabel.str "all", 1, "val", "fc", 31⟩,
       ⟨DSLabel.str "all", 1, "train", "loss", 21⟩,
       ⟨DSLabel.str "all", 1, "train", "fc", 41⟩,
       ⟨DSLabel.str "all", 2, "val", "loss", 12⟩,
       ⟨DSLabel.str "all", 2, "val", "fc", 32⟩,
       ⟨DSLabel.str "all", 2, "train", "loss", 22⟩,
       ⟨DSLabel.str "all", 2, "train", "fc", 42⟩] : List MetricsRec).filter
      (fun rec => decide (rec.dtype = "val" ∧ rec.epoch = 0 ∧
        rec.loss = "loss"))).map MetricsRec.val = [10] := by
  obtain ⟨v, hv, hfil⟩ :=
    (C8_val_round_trip
      [⟨-1, 0, [("val_loss", 10), ("tr_loss", 20), ("val_fc", 30), ("tr_fc", 40)]⟩,
       ⟨-1, 1, [("val_loss", 11), ("tr_loss", 21), ("val_fc", 31), ("tr_fc", 41)]⟩,
       ⟨-1, 2, [("val_loss", 12), ("tr_loss", 22), ("val_fc", 32), ("tr_fc", 42)]⟩]
      ["loss", "fc"] none
      [⟨DSLabel.str "all", 0, "val", "loss", 10⟩,
       ⟨DSLabel.str "all", 0, "val", "fc", 30⟩,
       ⟨DSLabel.str "all", 0, "train", "loss", 20⟩,
       ⟨DSLabel.str "all", 0, "train", "fc", 40⟩,
       ⟨DSLabel.str "all", 1, "val", "loss", 11⟩,
       ⟨DSLabel.str "all", 1, "val", "fc", 31⟩,
       ⟨DSLabel.str "all", 1, "train", "loss", 21⟩,
       ⟨DSLabel.str "all", 1, "train", "fc", 41⟩,
       ⟨DSLabel.str "all", 2, "val", "loss", 12⟩,
       ⟨DSLabel.str "all", 2, "val", "fc", 32⟩,
       ⟨DSLabel.str "all", 2, "train", "loss", 22⟩,
       ⟨DSLabel.str "all", 2, "train", "fc", 42⟩]
      (by rfl) (by simp) (by simp)).1
      ⟨-1, 0, [("val_loss", 10), ("tr_loss", 20), ("val_fc", 30), ("tr_fc", 40)]⟩
      (by simp) "loss" (by simp) (DSLabel.str "all") (by rfl)
  obtain rfl : v = 10 := (Option.some.inj ((by rfl : getCol
    ⟨-1, 0, [("val_loss", 10), ("tr_loss", 20), ("val_fc", 30), ("tr_fc", 40)]⟩
    ("val_" ++ "loss") = some 10).symm.trans hv)).symm
  simpa using hfil

/-- C9: if any referenced column is missing from a row of the CSV --
`test_<metric>` in test mode, `val_<metric>` or `tr_<metric>` in normal
mode -- the loader fails with no output table at all. -/
theorem C9_missing_column_fatal (csv : List CsvRow) (ml : List String)
    (expt_ids : Option (List String)) (r : CsvRow) (m : String)
    (hr : r ∈ csv) (hm : m ∈ ml) :
    (getCol r ("test_" ++ m) = none →
      load_metrics_csv_as_df csv ml expt_ids true = none) ∧
    ((getCol r ("val_" ++ m) = none ∨ getCol r ("tr_" ++ m) = none) →
      load_metrics_csv_as_df csv ml expt_ids false = none) := by
  constructor
  · intro hc
    unfold load_metrics_csv_as_df
    split
    · rfl
    · exact loadRows_none_of_row hr (rowRecords_none_test hm hc)
  · intro hc
    unfold load_metrics_csv_as_df
    split
    · rfl
    · exact loadRows_none_of_row hr (rowRecords_none_false hm hc)

/-- C9, witness: a one-row CSV lacking the `test_loss` column makes the
test-mode load fail. -/
theorem C9_missing_column_fatal_witness :
    load_metrics_csv_as_df [⟨-1, 1, [("val_loss", 3), ("tr_loss", 4)]⟩]
      ["loss"] none true = none :=
  (C9_missing_column_fatal [⟨-1, 1, [("val_loss", 3), ("tr_loss", 4)]⟩]
    ["loss"] none ⟨-1, 1, [("val_loss", 3), ("tr_loss", 4)]⟩ "loss"
    (by simp) (by simp)).1 (by rfl)

end Daart
